import Mathlib

/-!
Verification of the gitBrowser repository's core logic: the file-history
parser (`GetFileHistory` in git/git.go), the commit-log parser (`GetLog`),
the file-diff fallback resolution performed by `fileDiffHandler` (called
`resolveDiffWithFallback` in the design document), and the request-path
guard `normalizeRepoRelativePath`.

The external git tool is modelled as an oracle mapping a full
command-argument list to either an error or the raw standard output;
`Command` in git.go trims that output, which the model mirrors.
Go string primitives (`strings.Split`, `strings.HasPrefix`,
`strings.TrimPrefix`, `strings.TrimSpace`, `strings.Join`) are embedded
as executable functions on `String`, and `filepath.Clean`/`filepath.ToSlash`
are modelled with POSIX path semantics (the deployment target is Linux,
where `ToSlash` is the identity).
-/

namespace GitBrowser

/-- Model of Go `strings.Split` restricted to a single-character separator
(the source only splits on `"\n"`, `"|"`, `"\t"` and `"/"`): splits around
every occurrence of `sep`, so the result always has one more element than
the number of separators. -/
def splitChars (sep : Char) : List Char → List (List Char)
  | [] => [[]]
  | c :: cs =>
    match splitChars sep cs with
    | [] => [[]]
    | h :: t => if c = sep then [] :: h :: t else (c :: h) :: t

/-- Go `strings.Split(s, sep)` for a one-character separator. -/
def splitGo (s : String) (sep : Char) : List String :=
  (splitChars sep s.data).map fun l => ⟨l⟩

/-- Go `strings.HasPrefix(s, pre)`. -/
def hasPrefixGo (s pre : String) : Bool :=
  pre.data.isPrefixOf s.data

/-- Go `strings.TrimPrefix(s, pre)`: removes `pre` when present, otherwise
returns `s` unchanged. -/
def trimPrefixGo (s pre : String) : String :=
  if hasPrefixGo s pre then ⟨s.data.drop pre.data.length⟩ else s

/-- ASCII whitespace as recognised by Go `unicode.IsSpace` (the Unicode
space classes beyond ASCII play no role in the claims). -/
def isSpaceGo (c : Char) : Bool :=
  c = ' ' || c = '\t' || c = '\n' || c = '\x0b' || c = '\x0c' || c = '\r'

/-- Go `strings.TrimSpace`. -/
def trimSpaceGo (s : String) : String :=
  ⟨((s.data.dropWhile isSpaceGo).reverse.dropWhile isSpaceGo).reverse⟩

/-- Go `strings.Join(parts, sep)`. -/
def joinGo (sep : String) : List String → String
  | [] => ""
  | [x] => x
  | x :: xs => x ++ sep ++ joinGo sep xs

/-- `LogEntry` from git/git.go: one commit of `git log` output. -/
structure LogEntry where
  Hash : String
  Author : String
  Date : String
  Subject : String
  deriving DecidableEq

/-- `FileHistoryEntry` from git/git.go: a log entry plus the path the file
had at that specific commit. -/
structure FileHistoryEntry extends LogEntry where
  Path : String
  deriving DecidableEq

/-- The external git tool: an oracle from the argument list passed to
`Command` to the raw (untrimmed) standard output, or an error when the
invocation exits non-zero. -/
structure GitTool where
  run : List String → Except String String

/-- `Command` in git.go returns the standard output trimmed of surrounding
whitespace; errors pass through to the caller. -/
def commandOut (t : GitTool) (args : List String) : Except String String :=
  (t.run args).map trimSpaceGo

/-- Argument list built by `GetLog` (git.go line 49). -/
def getLogArgs (rev : String) : List String :=
  ["log", rev, "--pretty=format:%H|%an|%ad|%s", "--date=short", "-n", "20"]

/-- Argument list built by `GetFileHistory` (git.go lines 162-173). -/
def getFileHistoryArgs (rev path : String) : List String :=
  ["log", rev, "--pretty=format:__GB__%H|%an|%ad|%s", "--date=short",
    "-n", "50", "--follow", "--name-status", "--", path]

/-- Argument list built by `GetCommitFileDiff` (git.go line 250). -/
def getCommitFileDiffArgs (hash path : String) : List String :=
  ["show", hash, "--", path]

/-- Body of the per-line loop in `GetLog` (git.go lines 60-70): a line
splitting into exactly four pipe-separated fields is appended as an entry,
any other line leaves the accumulator unchanged. -/
def logStep (acc : List LogEntry) (line : String) : List LogEntry :=
  match splitGo line '|' with
  | [h, a, d, s] => acc ++ [{ Hash := h, Author := a, Date := d, Subject := s }]
  | _ => acc

/-- The parsing loop of `GetLog` over all output lines. -/
def parseLogLines (lines : List String) : List LogEntry :=
  lines.foldl logStep []

/-- `GetLog` from git.go: defaults the revision to HEAD, invokes the tool,
returns an empty list on empty output, otherwise parses line by line. -/
def GetLog (t : GitTool) (rev : String) : Except String (List LogEntry) :=
  let rev := if rev = "" then "HEAD" else rev
  match commandOut t (getLogArgs rev) with
  | .error e => .error e
  | .ok out =>
    if out = "" then .ok []
    else .ok (parseLogLines (splitGo out '\n'))

/-- State of the hand-rolled line parser inside `GetFileHistory`
(git.go lines 182-199): accumulated entries, the pending entry for the
commit whose status lines are being read, the path cursor valid for the
pending commit, and the path the cursor switches to at the next flush. -/
structure ParseState where
  entries : List FileHistoryEntry
  current : Option FileHistoryEntry
  currentPath : String
  nextPath : String
  deriving DecidableEq

/-- The `flush` closure of `GetFileHistory` (git.go lines 187-200):
finalizes the pending entry, defaulting its path to the cursor, and
switches the cursor to `nextPath` when a rename was seen. -/
def flushState (st : ParseState) : ParseState :=
  match st.current with
  | none => st
  | some cur =>
    let cur := if cur.Path = "" then { cur with Path := st.currentPath } else cur
    { entries := st.entries ++ [cur]
      current := none
      currentPath := if st.nextPath = "" then st.currentPath else st.nextPath
      nextPath := "" }

/-- The pending entry created from a commit-marker line: `some` exactly when
the text after the `__GB__` marker has four pipe-separated fields
(git.go lines 205-216). -/
def markerEntry (curPath line : String) : Option FileHistoryEntry :=
  match splitGo (trimPrefixGo line "__GB__") '|' with
  | [h, a, d, s] =>
    some { Hash := h, Author := a, Date := d, Subject := s, Path := curPath }
  | _ => none

/-- One iteration of the loop in `GetFileHistory` (git.go lines 202-241). -/
def historyStep (st : ParseState) (line : String) : ParseState :=
  if hasPrefixGo line "__GB__" then
    let st1 := flushState st
    { st1 with current := markerEntry st1.currentPath line }
  else if st.current = none ∨ trimSpaceGo line = "" then st
  else
    match splitGo line '\t' with
    | status :: p1 :: rest =>
      if hasPrefixGo status "R" ∧ rest ≠ [] then
        let oldPath := p1
        let newPath := rest.headD ""
        if newPath = st.currentPath then
          { st with
            current := st.current.map (fun c => { c with Path := newPath })
            nextPath := oldPath }
        else st
      else
        if p1 = st.currentPath then
          { st with current := st.current.map (fun c => { c with Path := p1 }) }
        else st
    | _ => st

/-- The parsing phase of `GetFileHistory` (git.go lines 181-243): run the
state machine over the lines of the tool output, starting with the query
path as cursor, and flush the last pending entry. -/
def parseFileHistory (path out : String) : List FileHistoryEntry :=
  (flushState ((splitGo out '\n').foldl historyStep ⟨[], none, path, ""⟩)).entries

/-- `GetFileHistory` from git.go: defaults the revision, strips a leading
slash from the path, invokes the tool, returns an empty list on empty
output, otherwise parses. -/
def GetFileHistory (t : GitTool) (rev path : String) : Except String (List FileHistoryEntry) :=
  let rev := if rev = "" then "HEAD" else rev
  let path := trimPrefixGo path "/"
  match commandOut t (getFileHistoryArgs rev path) with
  | .error e => .error e
  | .ok out =>
    if out = "" then .ok []
    else .ok (parseFileHistory path out)

/-- `GetCommitFileDiff` from git.go: strips a leading slash and asks the
tool for the single-file patch of one commit. -/
def GetCommitFileDiff (t : GitTool) (hash path : String) : Except String String :=
  commandOut t (getCommitFileDiffArgs hash (trimPrefixGo path "/"))

/-- The diff-with-fallback logic of `fileDiffHandler` (main.go): fetch the
per-file diff directly; if it is empty after trimming, look the file's
history up from HEAD, scan for the first entry of the target commit whose
recorded path differs from the requested one, and retry the diff under
that historical name; failures of the fallback or of the retry leave the
original result in place. -/
def resolveDiffWithFallback (t : GitTool) (hash normalizedPath : String) :
    Except String (String × String) :=
  match GetCommitFileDiff t hash normalizedPath with
  | .error e => .error e
  | .ok diff =>
    if trimSpaceGo diff = "" then
      match GetFileHistory t "HEAD" normalizedPath with
      | .error _ => .ok (diff, normalizedPath)
      | .ok history =>
        match history.find? (fun e => e.Hash == hash && e.Path != normalizedPath) with
        | none => .ok (diff, normalizedPath)
        | some entry =>
          match GetCommitFileDiff t hash entry.Path with
          | .error _ => .ok (diff, normalizedPath)
          | .ok retryDiff => .ok (retryDiff, entry.Path)
    else .ok (diff, normalizedPath)

/-- Component pass of Go `filepath.Clean` (POSIX): `acc` holds the already
cleaned components in reverse; `..` pops a poppable component, is dropped
at the root of a rooted path, and is kept at the head of a relative path. -/
def cleanComponents (rooted : Bool) : List String → List String → List String
  | acc, [] => acc.reverse
  | acc, c :: rest =>
    if c = ".." then
      match acc with
      | a :: as =>
        if a = ".." then cleanComponents rooted (c :: a :: as) rest
        else cleanComponents rooted as rest
      | [] =>
        if rooted then cleanComponents rooted [] rest
        else cleanComponents rooted [".."] rest
    else cleanComponents rooted (c :: acc) rest

/-- Model of Go `filepath.Clean` with POSIX separators (equivalently
`path.Clean`): shortest lexically equivalent path — collapses repeated
separators, eliminates `.` and resolvable `..` components, returns `.`
for an empty result, and keeps a rooted path rooted. -/
def cleanPath (p : String) : String :=
  if p = "" then "."
  else
    let rooted := hasPrefixGo p "/"
    let comps := (splitGo p '/').filter fun c => ¬(c = "" ∨ c = ".")
    let s := joinGo "/" (cleanComponents rooted [] comps)
    if rooted then "/" ++ s
    else if s = "" then "." else s

/-- `normalizeRepoRelativePath` from main.go (the guard used by the blob,
file-history and file-diff handlers): trims the request, strips a leading
slash, strips a repeated repository-path prefix, cleans the remainder and
rejects `.`, the empty path and paths starting with `../`. `none` models
the Go `ok = false` return. -/
def normalizeRepoRelativePath (repoPath requestedPath : String) : Option String :=
  let path := trimSpaceGo requestedPath
  let path := trimPrefixGo path "/"
  if path = "" then none
  else
    let repoPath := cleanPath repoPath
    let withLeadingSlash := "/" ++ path
    let path :=
      if hasPrefixGo withLeadingSlash (repoPath ++ "/") then
        trimPrefixGo withLeadingSlash (repoPath ++ "/")
      else
        let repoPathNoLeadingSlash := trimPrefixGo repoPath "/"
        if hasPrefixGo path (repoPathNoLeadingSlash ++ "/") then
          trimPrefixGo path (repoPathNoLeadingSlash ++ "/")
        else path
    let path := cleanPath path
    let path := trimPrefixGo path "./"
    if path = "." ∨ path = "" ∨ hasPrefixGo path "../" then none
    else some path

/-!
Concrete data mirroring the repository's own test scenario
(`setupRepoWithRenamedFile` in git/git_test.go): a file `a/f.kt` created
in commit `h1`, modified in `h2`, and moved to `b/a/f.kt` in commit `h3`
(newest). `sampleHistoryOut` is the tool output for the follow/name-status
log of `b/a/f.kt` from HEAD, newest first.
-/

/-- Tool output of the history query for `b/a/f.kt` over the three-commit
create/modify/rename scenario. -/
def sampleHistoryOut : String :=
  "__GB__h3|alice|2024-01-03|moved\nR100\ta/f.kt\tb/a/f.kt\n\n__GB__h2|alice|2024-01-02|modified\nM\ta/f.kt\n\n__GB__h1|alice|2024-01-01|created\nA\ta/f.kt"

/-- The non-empty per-file patch of commit `h2` under the historical name
`a/f.kt`. -/
def sampleDiffOld : String :=
  "diff --git a/a/f.kt b/a/f.kt\n+toUri"

/-- Tool oracle for the scenario: the diff of `h2` under the current name
`b/a/f.kt` is empty (the path did not exist yet), the diff under the
historical name `a/f.kt` is `sampleDiffOld`, and the history query for
`b/a/f.kt` from HEAD returns `sampleHistoryOut`. -/
def sampleTool : GitTool :=
  ⟨fun args =>
    if args = getCommitFileDiffArgs "h2" "b/a/f.kt" then .ok ""
    else if args = getCommitFileDiffArgs "h2" "a/f.kt" then .ok sampleDiffOld
    else if args = getFileHistoryArgs "HEAD" "b/a/f.kt" then .ok sampleHistoryOut
    else .error "exit status 128"⟩

/-- Tool oracle on which every invocation fails. -/
def failTool : GitTool :=
  ⟨fun _ => .error "exit status 128: fatal: bad revision"⟩

/-- Tool oracle on which every invocation succeeds with whitespace-only
output. -/
def blankTool : GitTool :=
  ⟨fun _ => .ok "  \n "⟩

/-- Tool oracle on which the direct diff of `h2` for `b/a/f.kt` is empty and
everything else, the history lookup included, fails. -/
def noHistoryTool : GitTool :=
  ⟨fun args =>
    if args = getCommitFileDiffArgs "h2" "b/a/f.kt" then .ok ""
    else .error "exit status 128"⟩

/-- Tool oracle on which the direct diff of `h2` for `b/a/f.kt` is empty,
the history lookup succeeds, and the retried diff under the historical
name fails. -/
def noRetryTool : GitTool :=
  ⟨fun args =>
    if args = getCommitFileDiffArgs "h2" "b/a/f.kt" then .ok ""
    else if args = getFileHistoryArgs "HEAD" "b/a/f.kt" then .ok sampleHistoryOut
    else .error "exit status 128"⟩

/-- Tool oracle on which every invocation returns the non-empty sample
patch. -/
def fullDiffTool : GitTool :=
  ⟨fun _ => .ok sampleDiffOld⟩

/-- The file-history entries of the three-commit scenario, newest first:
the rename commit `h3` is recorded under the new name, the older commits
under the original name. -/
def sampleEntries : List FileHistoryEntry :=
  [⟨⟨"h3", "alice", "2024-01-03", "moved"⟩, "b/a/f.kt"⟩,
   ⟨⟨"h2", "alice", "2024-01-02", "modified"⟩, "a/f.kt"⟩,
   ⟨⟨"h1", "alice", "2024-01-01", "created"⟩, "a/f.kt"⟩]

/-- A commit-marker record: a line carrying the `__GB__` marker whose
remainder has exactly four pipe-separated fields — precisely the lines for
which the parser creates a pending entry. -/
def isMarkerRecord (line : String) : Bool :=
  hasPrefixGo line "__GB__" && ((splitGo (trimPrefixGo line "__GB__") '|').length == 4)

/-- The hash field of a commit-marker record. -/
def markerHash (line : String) : String :=
  (splitGo (trimPrefixGo line "__GB__") '|').headD ""

/-- The hashes a parser state will eventually emit: flushed entries followed
by the pending entry, if any. -/
def sigOf (st : ParseState) : List String :=
  st.entries.map (fun e => e.Hash) ++ ((st.current.map (fun e => e.Hash)).toList)

end GitBrowser

namespace GitBrowser

/-- C4. Empty result is not an error: whenever the external tool succeeds
on the file-history query but its output trims to the empty string,
`GetFileHistory` (the spec's `resolveFileHistory`) returns an empty
sequence and no error, distinguishing "not found" from "failed". -/
theorem getFileHistory_empty_result_ok (t : GitTool) (rev path raw : String)
    (hok : t.run (getFileHistoryArgs (if rev = "" then "HEAD" else rev) (trimPrefixGo path "/")) = .ok raw)
    (hempty : trimSpaceGo raw = "") :
    GetFileHistory t rev path = .ok [] := by
  simp [GetFileHistory, commandOut, hok, Except.map, hempty]

/-- Witness for C4: a tool answering whitespace-only output yields an empty
history without error. -/
theorem getFileHistory_empty_result_ok_witness :
    GetFileHistory blankTool "HEAD" "a/f.kt" = .ok [] :=
  getFileHistory_empty_result_ok blankTool "HEAD" "a/f.kt" "  \n " rfl (by decide)

/-- C9. Determinism: `GetFileHistory` is a pure function of the revision,
the path and the tool's output on the one query it issues; two tools that
agree on that query (an unchanged repository) give identical sequences. -/
theorem getFileHistory_deterministic (t1 t2 : GitTool) (rev path : String)
    (h : t1.run (getFileHistoryArgs (if rev = "" then "HEAD" else rev) (trimPrefixGo path "/")) =
         t2.run (getFileHistoryArgs (if rev = "" then "HEAD" else rev) (trimPrefixGo path "/"))) :
    GetFileHistory t1 rev path = GetFileHistory t2 rev path := by
  simp only [GetFileHistory, commandOut, h]

/-- Witness for C9: re-invoking on the same tool gives the same result. -/
theorem getFileHistory_deterministic_witness :
    GetFileHistory sampleTool "HEAD" "b/a/f.kt" = GetFileHistory sampleTool "HEAD" "b/a/f.kt" :=
  getFileHistory_deterministic sampleTool sampleTool "HEAD" "b/a/f.kt" rfl

/-- C5. Direct-hit case of `resolveDiffWithFallback`: when the per-file
diff at the commit is non-empty after trimming, the fallback is not
consulted and the diff is returned unchanged with the input path as the
resolved path. -/
theorem resolveDiffWithFallback_direct_hit (t : GitTool) (hash path diff : String)
    (h : GetCommitFileDiff t hash path = .ok diff)
    (hne : trimSpaceGo diff ≠ "") :
    resolveDiffWithFallback t hash path = .ok (diff, path) := by
  simp [resolveDiffWithFallback, h, hne]

/-- Witness for C5: a tool with a non-empty direct diff. -/
theorem resolveDiffWithFallback_direct_hit_witness :
    resolveDiffWithFallback fullDiffTool "h2" "b/a/f.kt" = .ok (sampleDiffOld, "b/a/f.kt") :=
  resolveDiffWithFallback_direct_hit fullDiffTool "h2" "b/a/f.kt" sampleDiffOld rfl (by decide)

/-- C2. Fallback path resolution: when the direct per-file diff is empty
after trimming and the history of the current path from HEAD has an entry
for the target commit with a different recorded path (the first such entry
found by the scan), `resolveDiffWithFallback` returns the diff obtained by
querying the tool with that historical name and reports that name as the
resolved path. -/
theorem resolveDiffWithFallback_historical_path (t : GitTool) (hash path diff d : String)
    (history : List FileHistoryEntry) (entry : FileHistoryEntry)
    (h1 : GetCommitFileDiff t hash path = .ok diff)
    (h2 : trimSpaceGo diff = "")
    (h3 : GetFileHistory t "HEAD" path = .ok history)
    (h4 : history.find? (fun e => e.Hash == hash && e.Path != path) = some entry)
    (h5 : GetCommitFileDiff t hash entry.Path = .ok d) :
    resolveDiffWithFallback t hash path = .ok (d, entry.Path) := by
  simp [resolveDiffWithFallback, h1, h2, h3, h4, h5]

/-- Witness for C2: in the three-commit scenario, asking for commit `h2`
under the current name `b/a/f.kt` returns the diff of the historical name
`a/f.kt` and resolves the path to it. -/
theorem resolveDiffWithFallback_historical_path_witness :
    resolveDiffWithFallback sampleTool "h2" "b/a/f.kt" = .ok (sampleDiffOld, "a/f.kt") :=
  resolveDiffWithFallback_historical_path sampleTool "h2" "b/a/f.kt" "" sampleDiffOld
    sampleEntries ⟨⟨"h2", "alice", "2024-01-02", "modified"⟩, "a/f.kt"⟩
    rfl (by decide) rfl (by decide) rfl

/-- C3. Failure semantics of `resolveDiffWithFallback`: a tool failure on
the primary diff fetch propagates to the caller as that same error, while
a failure of the fallback history lookup, or of the retried diff fetch,
is swallowed and the original empty diff with the original path is
returned. -/
theorem resolveDiffWithFallback_failure_semantics :
    (∀ (t : GitTool) (hash path e : String),
      t.run (getCommitFileDiffArgs hash (trimPrefixGo path "/")) = .error e →
      resolveDiffWithFallback t hash path = .error e) ∧
    (∀ (t : GitTool) (hash path diff e : String),
      GetCommitFileDiff t hash path = .ok diff → trimSpaceGo diff = "" →
      GetFileHistory t "HEAD" path = .error e →
      resolveDiffWithFallback t hash path = .ok (diff, path)) ∧
    (∀ (t : GitTool) (hash path diff e : String)
      (history : List FileHistoryEntry) (entry : FileHistoryEntry),
      GetCommitFileDiff t hash path = .ok diff → trimSpaceGo diff = "" →
      GetFileHistory t "HEAD" path = .ok history →
      history.find? (fun en => en.Hash == hash && en.Path != path) = some entry →
      GetCommitFileDiff t hash entry.Path = .error e →
      resolveDiffWithFallback t hash path = .ok (diff, path)) := by
  refine ⟨?_, ?_, ?_⟩
  · intro t hash path e h
    simp [resolveDiffWithFallback, GetCommitFileDiff, commandOut, h, Except.map]
  · intro t hash path diff e h1 h2 h3
    simp [resolveDiffWithFallback, h1, h2, h3]
  · intro t hash path diff e history entry h1 h2 h3 h4 h5
    simp [resolveDiffWithFallback, h1, h2, h3, h4, h5]

/-- Witness for C3: a tool failing outright surfaces its error; a tool
whose history lookup fails, and one whose retried diff fails, both return
the original empty diff and input path. -/
theorem resolveDiffWithFallback_failure_semantics_witness :
    resolveDiffWithFallback failTool "h2" "b/a/f.kt" = .error "exit status 128: fatal: bad revision" ∧
    resolveDiffWithFallback noHistoryTool "h2" "b/a/f.kt" = .ok ("", "b/a/f.kt") ∧
    resolveDiffWithFallback noRetryTool "h2" "b/a/f.kt" = .ok ("", "b/a/f.kt") :=
  ⟨resolveDiffWithFallback_failure_semantics.1 failTool "h2" "b/a/f.kt" _ rfl,
   resolveDiffWithFallback_failure_semantics.2.1 noHistoryTool "h2" "b/a/f.kt" "" "exit status 128"
     rfl (by decide) rfl,
   resolveDiffWithFallback_failure_semantics.2.2 noRetryTool "h2" "b/a/f.kt" "" "exit status 128"
     sampleEntries ⟨⟨"h2", "alice", "2024-01-02", "modified"⟩, "a/f.kt"⟩
     rfl (by decide) rfl (by decide) rfl⟩

end GitBrowser

namespace GitBrowser

/-- Flushing always clears the pending entry. -/
lemma flushState_current (st : ParseState) : (flushState st).current = none := by
  cases h : st.current <;> simp [flushState, h]

/-- Flushing turns the signature of a state into its entry hashes. -/
lemma flushState_entries_hash (st : ParseState) :
    (flushState st).entries.map (fun e => e.Hash) = sigOf st := by
  cases h : st.current with
  | none => simp [flushState, h, sigOf]
  | some cur =>
    simp only [flushState, h, sigOf]
    split <;> simp

/-- Updating the pending entry through a hash-preserving function, or moving
the cursors, leaves the signature unchanged. -/
lemma sigOf_update (st : ParseState) (f : FileHistoryEntry → FileHistoryEntry)
    (hf : ∀ c, (f c).Hash = c.Hash) (cp np : String) :
    sigOf ⟨st.entries, st.current.map f, cp, np⟩ = sigOf st := by
  cases h : st.current <;> simp [sigOf, h, hf]

/-- The hash contributed by a marker line: one entry when the line has four
fields, nothing otherwise. -/
lemma markerEntry_hash_toList (p line : String) :
    ((markerEntry p line).map (fun e => e.Hash)).toList =
      if (splitGo (trimPrefixGo line "__GB__") '|').length = 4
      then [markerHash line] else [] := by
  unfold markerEntry markerHash
  generalize splitGo (trimPrefixGo line "__GB__") '|' = parts
  match parts with
  | [] => simp
  | [a] => simp
  | [a, b] => simp
  | [a, b, c] => simp
  | [a, b, c, d] => simp
  | a :: b :: c :: d :: e :: t => simp

/-- One parser step appends exactly the hash of a well-formed marker line to
the signature and nothing else. -/
lemma historyStep_sig (st : ParseState) (line : String) :
    sigOf (historyStep st line) =
      sigOf st ++ (if isMarkerRecord line = true then [markerHash line] else []) := by
  by_cases hm : hasPrefixGo line "__GB__" = true
  · have h1 : historyStep st line =
        { flushState st with current := markerEntry (flushState st).currentPath line } := by
      unfold historyStep
      rw [hm]
      simp
    rw [h1]
    have h2 : sigOf { flushState st with current := markerEntry (flushState st).currentPath line } =
        (flushState st).entries.map (fun e => e.Hash) ++
          ((markerEntry (flushState st).currentPath line).map (fun e => e.Hash)).toList := rfl
    rw [h2, flushState_entries_hash, markerEntry_hash_toList]
    simp [isMarkerRecord, hm]
  · have hrec : isMarkerRecord line = false := by
      simp [isMarkerRecord, Bool.eq_false_iff.mpr, hm]
    rw [hrec]
    simp only [Bool.false_eq_true, if_false, List.append_nil]
    unfold historyStep
    rw [Bool.not_eq_true] at hm
    rw [hm]
    simp only [Bool.false_eq_true, if_false]
    split
    · rfl
    · split
      · split
        · split
          · apply sigOf_update
            intro c
            rfl
          · rfl
        · split
          · apply sigOf_update
            intro c
            rfl
          · rfl
      · rfl

/-- Folding the parser over a line sequence appends the hashes of its
well-formed marker lines, in order. -/
lemma foldl_historyStep_sig (lines : List String) (st : ParseState) :
    sigOf (lines.foldl historyStep st) =
      sigOf st ++ (lines.filter (fun l => isMarkerRecord l)).map markerHash := by
  induction lines generalizing st with
  | nil => simp
  | cons line rest ih =>
    rw [List.foldl_cons, ih, historyStep_sig]
    rw [List.filter_cons]
    split <;> simp

/-- C6. Ordering invariant: the entries produced by the file-history parser
carry exactly the hashes of the well-formed commit-marker records of the
tool output, in the order those records appear (most recent first in git
log output); the parser performs no reordering. -/
theorem parseFileHistory_preserves_order (path out : String) :
    (parseFileHistory path out).map (fun e => e.Hash) =
      ((splitGo out '\n').filter (fun l => isMarkerRecord l)).map markerHash := by
  unfold parseFileHistory
  rw [flushState_entries_hash, foldl_historyStep_sig]
  simp [sigOf]

end GitBrowser

namespace GitBrowser

/-- A log line without exactly four pipe-separated fields leaves the
accumulator untouched. -/
lemma logStep_malformed (acc : List LogEntry) (bad : String)
    (h : (splitGo bad '|').length ≠ 4) : logStep acc bad = acc := by
  unfold logStep
  generalize hp : splitGo bad '|' = parts
  rw [hp] at h
  match parts with
  | [] => rfl
  | [a] => rfl
  | [a, b] => rfl
  | [a, b, c] => rfl
  | [a, b, c, d] => simp at h
  | a :: b :: c :: d :: e :: t => rfl

/-- Each log line contributes at most one entry. -/
lemma logStep_length (acc : List LogEntry) (line : String) :
    (logStep acc line).length ≤ acc.length + 1 := by
  unfold logStep
  generalize splitGo line '|' = parts
  match parts with
  | [] => simp
  | [a] => simp
  | [a, b] => simp
  | [a, b, c] => simp
  | [a, b, c, d] => simp
  | a :: b :: c :: d :: e :: t => simp

/-- The log parser never produces more entries than it consumes lines. -/
lemma foldl_logStep_length (lines : List String) (acc : List LogEntry) :
    (lines.foldl logStep acc).length ≤ acc.length + lines.length := by
  induction lines generalizing acc with
  | nil => simp
  | cons line rest ih =>
    rw [List.foldl_cons]
    have h1 := ih (logStep acc line)
    have h2 := logStep_length acc line
    simp only [List.length_cons]
    omega

/-- A non-marker line with fewer than two tab-separated fields leaves the
parser state untouched. -/
lemma historyStep_short_line (st : ParseState) (line : String)
    (hm : hasPrefixGo line "__GB__" = false)
    (hlen : (splitGo line '\t').length < 2) :
    historyStep st line = st := by
  unfold historyStep
  rw [hm]
  simp only [Bool.false_eq_true, if_false]
  split
  · rfl
  · generalize hp : splitGo line '\t' = parts
    rw [hp] at hlen
    match parts with
    | [] => rfl
    | [x] => rfl
    | x :: y :: t => exact absurd hlen (by simp)

/-- A marker line without exactly four fields only flushes the pending
entry; no entry is created for it. -/
lemma historyStep_malformed_marker (st : ParseState) (line : String)
    (hm : hasPrefixGo line "__GB__" = true)
    (h4 : (splitGo (trimPrefixGo line "__GB__") '|').length ≠ 4) :
    historyStep st line = flushState st := by
  unfold historyStep
  rw [hm]
  simp only [if_true]
  have hnone : markerEntry (flushState st).currentPath line = none := by
    unfold markerEntry
    generalize hp : splitGo (trimPrefixGo line "__GB__") '|' = parts
    rw [hp] at h4
    match parts with
    | [] => rfl
    | [a] => rfl
    | [a, b] => rfl
    | [a, b, c] => rfl
    | [a, b, c, d] => simp at h4
    | a :: b :: c :: d :: e :: t => rfl
  rw [hnone, ← flushState_current st]

/-- C7. Malformed-record tolerance: a commit-log line without exactly four
pipe-separated fields contributes no entry and its removal does not change
the parse; a status line with fewer than two tab-separated fields leaves
the file-history parser state unchanged; a commit-marker line without four
fields only flushes the pending entry and creates none of its own; and
whenever the tool itself succeeds, both `GetLog` and `GetFileHistory`
return successfully rather than an error. -/
theorem malformed_lines_skipped :
    (∀ (pre suf : List String) (bad : String), (splitGo bad '|').length ≠ 4 →
      parseLogLines (pre ++ bad :: suf) = parseLogLines (pre ++ suf)) ∧
    (∀ (st : ParseState) (line : String),
      hasPrefixGo line "__GB__" = false → (splitGo line '\t').length < 2 →
      historyStep st line = st) ∧
    (∀ (st : ParseState) (line : String),
      hasPrefixGo line "__GB__" = true →
      (splitGo (trimPrefixGo line "__GB__") '|').length ≠ 4 →
      historyStep st line = flushState st ∧ (historyStep st line).current = none) ∧
    (∀ (t : GitTool) (rev raw : String),
      t.run (getLogArgs (if rev = "" then "HEAD" else rev)) = .ok raw →
      ∃ entries, GetLog t rev = .ok entries) ∧
    (∀ (t : GitTool) (rev path raw : String),
      t.run (getFileHistoryArgs (if rev = "" then "HEAD" else rev) (trimPrefixGo path "/")) = .ok raw →
      ∃ entries, GetFileHistory t rev path = .ok entries) := by
  refine ⟨?_, historyStep_short_line, ?_, ?_, ?_⟩
  · intro pre suf bad hbad
    unfold parseLogLines
    rw [List.foldl_append, List.foldl_append, List.foldl_cons,
      logStep_malformed _ _ hbad]
  · intro st line hm h4
    have h := historyStep_malformed_marker st line hm h4
    exact ⟨h, by rw [h]; exact flushState_current st⟩
  · intro t rev raw h
    simp only [GetLog, commandOut, h, Except.map]
    split
    · exact ⟨[], rfl⟩
    · exact ⟨_, rfl⟩
  · intro t rev path raw h
    simp only [GetFileHistory, commandOut, h, Except.map]
    split
    · exact ⟨[], rfl⟩
    · exact ⟨_, rfl⟩

/-- Witness for C7: a malformed log line among well-formed ones is dropped,
a garbage status line and a malformed marker line are tolerated, and both
queries succeed on concrete tools. -/
theorem malformed_lines_skipped_witness :
    parseLogLines (["a|b|c|d"] ++ "oops" :: ["e|f|g|h"]) = parseLogLines (["a|b|c|d"] ++ ["e|f|g|h"]) ∧
    historyStep ⟨[], some ⟨⟨"h9", "a", "d", "s"⟩, "p"⟩, "p", ""⟩ "garbage" =
      ⟨[], some ⟨⟨"h9", "a", "d", "s"⟩, "p"⟩, "p", ""⟩ ∧
    historyStep ⟨[], none, "p", ""⟩ "__GB__bad|line" = flushState ⟨[], none, "p", ""⟩ ∧
    (∃ entries, GetLog blankTool "" = .ok entries) ∧
    (∃ entries, GetFileHistory sampleTool "HEAD" "b/a/f.kt" = .ok entries) :=
  ⟨malformed_lines_skipped.1 ["a|b|c|d"] ["e|f|g|h"] "oops" (by decide),
   malformed_lines_skipped.2.1 _ "garbage" (by decide) (by decide),
   (malformed_lines_skipped.2.2.1 ⟨[], none, "p", ""⟩ "__GB__bad|line" (by decide) (by decide)).1,
   malformed_lines_skipped.2.2.2.1 blankTool "" "  \n " rfl,
   malformed_lines_skipped.2.2.2.2 sampleTool "HEAD" "b/a/f.kt" sampleHistoryOut rfl⟩

/-- C8. Bounded query windows: the commit-log query always passes the limit
arguments `-n 20` to the tool and the file-history query always passes
`-n 50`; moreover each parser emits at most one entry per tool-output
record (per line for the log, per commit-marker line for the history), so
the returned sequences can never exceed those windows of records. -/
theorem bounded_query_windows :
    (∀ rev : String, ["-n", "20"].Sublist (getLogArgs rev)) ∧
    (∀ rev path : String, ["-n", "50"].Sublist (getFileHistoryArgs rev path)) ∧
    (∀ lines : List String, (parseLogLines lines).length ≤ lines.length) ∧
    (∀ path out : String,
      (parseFileHistory path out).length ≤
        (splitGo out '\n').countP (fun l => hasPrefixGo l "__GB__")) := by
  refine ⟨?_, ?_, ?_, ?_⟩
  · intro rev
    exact List.sublist_append_right
      ["log", rev, "--pretty=format:%H|%an|%ad|%s", "--date=short"] ["-n", "20"]
  · intro rev path
    exact (List.sublist_append_left ["-n", "50"]
        ["--follow", "--name-status", "--", path]).trans
      (List.sublist_append_right
        ["log", rev, "--pretty=format:__GB__%H|%an|%ad|%s", "--date=short"] _)
  · intro lines
    have := foldl_logStep_length lines []
    simpa [parseLogLines] using this
  · intro path out
    have h1 : (parseFileHistory path out).length =
        ((splitGo out '\n').filter (fun l => isMarkerRecord l)).length := by
      have := congrArg List.length (parseFileHistory_preserves_order path out)
      simpa using this
    rw [h1, ← List.countP_eq_length_filter]
    refine List.countP_mono_left fun l _ hl => ?_
    simp only [isMarkerRecord, Bool.and_eq_true] at hl
    simpa using hl.1

end GitBrowser

namespace GitBrowser

/-- Flushing a state with a pending entry appends it (defaulting its path
to the cursor) and moves the cursor to `nextPath` when one was recorded. -/
lemma flushState_some (en : List FileHistoryEntry) (cur : FileHistoryEntry) (cp np : String) :
    flushState ⟨en, some cur, cp, np⟩ =
      ⟨en ++ [if cur.Path = "" then { cur with Path := cp } else cur], none,
        if np = "" then cp else np, ""⟩ := rfl

/-- C1. Rename tracking in `GetFileHistory`: on a status line reporting a
rename whose new name equals the active cursor, the pending entry for that
commit records the new name and `nextPath` is set to the old name; the
following flush emits that entry and switches the cursor to the old name
exactly once (resetting `nextPath`), so entries of subsequent, older
commits record the pre-rename name. In the three-commit
create/modify/rename scenario the parse yields exactly three entries,
newest first, with the modify commit recorded under the original name and
the rename commit under the new name. -/
theorem getFileHistory_rename_tracking :
    (∀ (st : ParseState) (c : FileHistoryEntry) (line status old : String),
      st.current = some c →
      hasPrefixGo line "__GB__" = false →
      trimSpaceGo line ≠ "" →
      splitGo line '\t' = [status, old, st.currentPath] →
      hasPrefixGo status "R" = true →
      historyStep st line =
        { st with current := some { c with Path := st.currentPath }, nextPath := old } ∧
      flushState (historyStep st line) =
        ⟨st.entries ++ [{ c with Path := st.currentPath }], none,
          if old = "" then st.currentPath else old, ""⟩) ∧
    parseFileHistory "b/a/f.kt" sampleHistoryOut = sampleEntries := by
  constructor
  · intro st c line status old hc hm hblank hsplit hr
    have hstep : historyStep st line =
        { st with current := some { c with Path := st.currentPath }, nextPath := old } := by
      unfold historyStep
      rw [hm]
      simp only [Bool.false_eq_true, if_false]
      rw [if_neg (by simp [hc, hblank])]
      rw [hsplit]
      simp [hr, hc, Option.map]
    refine ⟨hstep, ?_⟩
    rw [hstep, flushState_some]
    split <;> rfl
  · decide

/-- Witness for C1: the rename line of the sample scenario, applied to the
state holding the pending rename-commit entry with cursor `b/a/f.kt`,
records the new name on the entry and flushing switches the cursor to the
old name `a/f.kt`. -/
theorem getFileHistory_rename_tracking_witness :
    historyStep ⟨[], some ⟨⟨"h3", "alice", "2024-01-03", "moved"⟩, "b/a/f.kt"⟩, "b/a/f.kt", ""⟩
        "R100\ta/f.kt\tb/a/f.kt" =
      ⟨[], some ⟨⟨"h3", "alice", "2024-01-03", "moved"⟩, "b/a/f.kt"⟩, "b/a/f.kt", "a/f.kt"⟩ ∧
    flushState (historyStep
        ⟨[], some ⟨⟨"h3", "alice", "2024-01-03", "moved"⟩, "b/a/f.kt"⟩, "b/a/f.kt", ""⟩
        "R100\ta/f.kt\tb/a/f.kt") =
      ⟨[⟨⟨"h3", "alice", "2024-01-03", "moved"⟩, "b/a/f.kt"⟩], none, "a/f.kt", ""⟩ := by
  have h := getFileHistory_rename_tracking.1
    ⟨[], some ⟨⟨"h3", "alice", "2024-01-03", "moved"⟩, "b/a/f.kt"⟩, "b/a/f.kt", ""⟩
    ⟨⟨"h3", "alice", "2024-01-03", "moved"⟩, "b/a/f.kt"⟩
    "R100\ta/f.kt\tb/a/f.kt" "R100" "a/f.kt" rfl (by decide) (by decide) (by decide) (by decide)
  exact ⟨h.1, h.2⟩

/-- C10 counterexample: the claim asserts that every input whose cleaned
form escapes the repository root is rejected, but the bare path `..` —
cleaned form `..`, which escapes the root — passes the guard, because the
final check only rejects paths beginning with `../`. The code returns it
accepted instead of rejecting it. -/
theorem normalizeRepoRelativePath_accepts_dotdot :
    normalizeRepoRelativePath "/repo" ".." = some ".." := by decide

/-- Strings consisting only of whitespace trim to the empty string. -/
lemma trimSpaceGo_all_space (s : String) (h : ∀ c ∈ s.data, isSpaceGo c = true) :
    trimSpaceGo s = "" := by
  unfold trimSpaceGo
  have h1 : s.data.dropWhile isSpaceGo = [] := List.dropWhile_eq_nil_iff.mpr h
  rw [h1]
  rfl

/-- C10 (amended). Path-normalization guard: every accepted path is
non-empty, is not `.`, and does not begin with `../`, and empty or
all-whitespace requests are rejected — but the bare path `..` is accepted
even though its cleaned form escapes the repository root. -/
theorem normalizeRepoRelativePath_guard :
    (∀ repoPath requested p, normalizeRepoRelativePath repoPath requested = some p →
      p ≠ "" ∧ p ≠ "." ∧ hasPrefixGo p "../" = false) ∧
    (∀ repoPath requested, (∀ c ∈ requested.data, isSpaceGo c = true) →
      normalizeRepoRelativePath repoPath requested = none) := by
  constructor
  · intro repoPath requested p h
    simp only [normalizeRepoRelativePath] at h
    split at h
    · exact absurd h (by simp)
    · split at h
      · split at h
        · exact absurd h (by simp)
        · rename_i hcond
          push_neg at hcond
          obtain ⟨h1, h2, h3⟩ := hcond
          injection h with h
          subst h
          exact ⟨h2, h1, by simpa using h3⟩
      · split at h
        · split at h
          · exact absurd h (by simp)
          · rename_i hcond
            push_neg at hcond
            obtain ⟨h1, h2, h3⟩ := hcond
            injection h with h
            subst h
            exact ⟨h2, h1, by simpa using h3⟩
        · split at h
          · exact absurd h (by simp)
          · rename_i hcond
            push_neg at hcond
            obtain ⟨h1, h2, h3⟩ := hcond
            injection h with h
            subst h
            exact ⟨h2, h1, by simpa using h3⟩
  · intro repoPath requested hsp
    have h1 : trimSpaceGo requested = "" := trimSpaceGo_all_space requested hsp
    simp only [normalizeRepoRelativePath, h1]
    rw [if_pos (by decide : trimPrefixGo "" "/" = "")]

/-- Witness for C10 (amended): a concrete accepted path satisfies the guard
conditions, and a whitespace-only request is rejected. -/
theorem normalizeRepoRelativePath_guard_witness :
    ("b.txt" ≠ "" ∧ "b.txt" ≠ "." ∧ hasPrefixGo "b.txt" "../" = false) ∧
    normalizeRepoRelativePath "/repo" " \t " = none :=
  ⟨normalizeRepoRelativePath_guard.1 "/repo" "a/../b.txt" "b.txt" (by decide),
   normalizeRepoRelativePath_guard.2 "/repo" " \t " (by decide)⟩

end GitBrowser
